import Mathlib

/-!
Verification of the bundle fetch-coordination and cache-consistency subsystem
of the block archiver (RequestLock, fetch coordinator, bundle-name parsing).

The Go code is embedded shallowly:
* machine integers (uint64) become Nat; where overflow matters the modulus
  2^64 is applied explicitly;
* the two maps of RequestLock become functions Nat → Option Range and
  Nat → Bool (a key is "present" in lookupMap exactly when the function
  returns true, matching the Go code which only ever stores true);
* the per-identifier loops of AddRange/RemoveRange are translated twice:
  once as structural recursion on the iteration count (the semantics of the
  Go loop whenever `to < 2^64 - 1`), and once as a fuel-indexed loop over
  uint64 arithmetic with wrap-around, used to settle the termination claim;
* external interactions (network calls, the LRU caches observed across the
  wait loop, block conversion) are supplied by an explicit environment, and
  the coordinator records lock operations and remote calls in an event trace.
-/

namespace BlockArchiver

/-- 2^64, the number of uint64 values. -/
def U64LIMIT : Nat := 2 ^ 64

/-- Range of block numbers, from types.go: `type Range struct { from, to uint64 }`.
`from` is a Lean keyword, hence the field name `from_`. -/
structure Range where
  from_ : Nat
  to_ : Nat
deriving DecidableEq

/-- State of RequestLock, from types.go: `rangeMap map[uint64]Range` and
`lookupMap map[uint64]bool` (the mutex is not part of the sequential model). -/
structure RequestLock where
  rangeMap : Nat → Option Range
  lookupMap : Nat → Bool

/-- `NewRequestLock`: both maps empty. -/
def emptyRequestLock : RequestLock :=
  { rangeMap := fun _ => none, lookupMap := fun _ => false }

/-- The loop `for i := from; i <= to; i++ { rc.lookupMap[i] = true }`,
recursing on the number of remaining iterations; the first argument is
the iteration count `to + 1 - from`. -/
def addLoopAux : Nat → (Nat → Bool) → Nat → (Nat → Bool)
  | 0, l, _ => l
  | k + 1, l, i => addLoopAux k (fun n => if n = i then true else l n) (i + 1)

/-- The loop `for i := from; i <= to; i++ { delete(rc.lookupMap, i) }`. -/
def removeLoopAux : Nat → (Nat → Bool) → Nat → (Nat → Bool)
  | 0, l, _ => l
  | k + 1, l, i => removeLoopAux k (fun n => if n = i then false else l n) (i + 1)

/-- `IsWithinAnyRange` from types.go: membership test in `lookupMap`. -/
def RequestLock.IsWithinAnyRange (rc : RequestLock) (num : Nat) : Bool :=
  rc.lookupMap num

/-- `AddRange` from types.go: store the range under key `from` in `rangeMap`
and mark every identifier of `[from, to]` in `lookupMap`. -/
def RequestLock.AddRange (rc : RequestLock) (f t : Nat) : RequestLock :=
  { rangeMap := fun k => if k = f then some ⟨f, t⟩ else rc.rangeMap k,
    lookupMap := addLoopAux (t + 1 - f) rc.lookupMap f }

/-- `RemoveRange` from types.go: delete key `from` from `rangeMap` and clear
every identifier of `[from, to]` from `lookupMap`. -/
def RequestLock.RemoveRange (rc : RequestLock) (f t : Nat) : RequestLock :=
  { rangeMap := fun k => if k = f then none else rc.rangeMap k,
    lookupMap := removeLoopAux (t + 1 - f) rc.lookupMap f }

theorem addLoopAux_apply : ∀ (k : Nat) (l : Nat → Bool) (i n : Nat),
    addLoopAux k l i n = (decide (i ≤ n ∧ n < i + k) || l n) := by
  intro k
  induction k with
  | zero =>
    intro l i n
    have h : decide (i ≤ n ∧ n < i + 0) = false := decide_eq_false (by omega)
    show l n = (decide (i ≤ n ∧ n < i + 0) || l n)
    rw [h, Bool.false_or]
  | succ k ih =>
    intro l i n
    rw [addLoopAux, ih]
    by_cases hni : n = i
    · subst hni
      have h1 : decide (n ≤ n ∧ n < n + (k + 1)) = true :=
        decide_eq_true (by omega)
      rw [if_pos rfl, h1, Bool.or_true, Bool.true_or]
    · have hiff : decide (i + 1 ≤ n ∧ n < i + 1 + k)
          = decide (i ≤ n ∧ n < i + (k + 1)) :=
        decide_eq_decide.mpr (by omega)
      rw [if_neg hni, hiff]

theorem removeLoopAux_apply : ∀ (k : Nat) (l : Nat → Bool) (i n : Nat),
    removeLoopAux k l i n = (!decide (i ≤ n ∧ n < i + k) && l n) := by
  intro k
  induction k with
  | zero =>
    intro l i n
    have h : decide (i ≤ n ∧ n < i + 0) = false := decide_eq_false (by omega)
    show l n = (!decide (i ≤ n ∧ n < i + 0) && l n)
    rw [h, Bool.not_false, Bool.true_and]
  | succ k ih =>
    intro l i n
    rw [removeLoopAux, ih]
    by_cases hni : n = i
    · subst hni
      have h1 : decide (n ≤ n ∧ n < n + (k + 1)) = true :=
        decide_eq_true (by omega)
      rw [if_pos rfl, h1, Bool.and_false, Bool.not_true, Bool.false_and]
    · have hiff : decide (i + 1 ≤ n ∧ n < i + 1 + k)
          = decide (i ≤ n ∧ n < i + (k + 1)) :=
        decide_eq_decide.mpr (by omega)
      rw [if_neg hni, hiff]

/-- Effect of `AddRange` on the membership test, pointwise. -/
theorem IsWithinAnyRange_AddRange (rc : RequestLock) (f t n : Nat) :
    (rc.AddRange f t).IsWithinAnyRange n
      = (decide (f ≤ n ∧ n ≤ t) || rc.IsWithinAnyRange n) := by
  show addLoopAux (t + 1 - f) rc.lookupMap f n = _
  rw [addLoopAux_apply]
  have h : decide (f ≤ n ∧ n < f + (t + 1 - f)) = decide (f ≤ n ∧ n ≤ t) :=
    decide_eq_decide.mpr (by omega)
  rw [h]
  rfl

/-- Effect of `RemoveRange` on the membership test, pointwise. -/
theorem IsWithinAnyRange_RemoveRange (rc : RequestLock) (f t n : Nat) :
    (rc.RemoveRange f t).IsWithinAnyRange n
      = (!decide (f ≤ n ∧ n ≤ t) && rc.IsWithinAnyRange n) := by
  show removeLoopAux (t + 1 - f) rc.lookupMap f n = _
  rw [removeLoopAux_apply]
  have h : decide (f ≤ n ∧ n < f + (t + 1 - f)) = decide (f ≤ n ∧ n ≤ t) :=
    decide_eq_decide.mpr (by omega)
  rw [h]
  rfl

/-- C5: after `AddRange(from, to)` with `from ≤ to`, `IsWithinAnyRange x` is
true for every `x` in the closed interval `[from, to]` and keeps its prior
value for every `x` outside the interval. -/
theorem addRange_isWithinAnyRange (rc : RequestLock) (f t : Nat) (hft : f ≤ t)
    (x : Nat) :
    (f ≤ x → x ≤ t → (rc.AddRange f t).IsWithinAnyRange x = true)
    ∧ (¬ (f ≤ x ∧ x ≤ t) →
        (rc.AddRange f t).IsWithinAnyRange x = rc.IsWithinAnyRange x) := by
  constructor
  · intro h1 h2
    rw [IsWithinAnyRange_AddRange]
    simp [h1, h2]
  · intro h
    rw [IsWithinAnyRange_AddRange]
    simp [h]

/-- Witness for C5 at the single-element range of the spec: after
`AddRange(5,5)` on an empty lock, 5 is within a range while 4 and 6 are not. -/
theorem addRange_isWithinAnyRange_witness :
    (emptyRequestLock.AddRange 5 5).IsWithinAnyRange 5 = true
    ∧ (emptyRequestLock.AddRange 5 5).IsWithinAnyRange 4 = false
    ∧ (emptyRequestLock.AddRange 5 5).IsWithinAnyRange 6 = false := by
  refine ⟨(addRange_isWithinAnyRange emptyRequestLock 5 5 (by decide) 5).1
      (by decide) (by decide), ?_, ?_⟩
  · have h := (addRange_isWithinAnyRange emptyRequestLock 5 5 (by decide) 4).2
      (by decide)
    exact h.trans rfl
  · have h := (addRange_isWithinAnyRange emptyRequestLock 5 5 (by decide) 6).2
      (by decide)
    exact h.trans rfl

/-- C6: `RemoveRange(from, to)` right after `AddRange(from, to)`, on a lock
holding no range overlapping `[from, to]`, leaves `IsWithinAnyRange x` false
for every `x` in `[from, to]`. -/
theorem removeRange_addRange_clears (rc : RequestLock) (f t : Nat) (hft : f ≤ t)
    (hno : ∀ k r, rc.rangeMap k = some r → r.to_ < f ∨ t < r.from_) (x : Nat)
    (h1 : f ≤ x) (h2 : x ≤ t) :
    ((rc.AddRange f t).RemoveRange f t).IsWithinAnyRange x = false := by
  rw [IsWithinAnyRange_RemoveRange]
  simp [h1, h2]

/-- Witness for C6 at a concrete round trip on the empty lock. -/
theorem removeRange_addRange_clears_witness :
    ((emptyRequestLock.AddRange 3 7).RemoveRange 3 7).IsWithinAnyRange 5 = false := by
  refine removeRange_addRange_clears emptyRequestLock 3 7 (by decide) ?_ 5
    (by decide) (by decide)
  intro k r h
  exact absurd h (by simp [emptyRequestLock])

/-- The Go loop over uint64 with wrap-around: `for i := from; i <= to; i++`,
executing `upd` on each iteration, with an explicit fuel bound; `none` means
the fuel ran out before the loop condition became false. The increment is
taken modulo 2^64 as uint64 addition wraps. -/
def lockLoopU64 (upd : (Nat → Bool) → Nat → (Nat → Bool)) :
    Nat → (Nat → Bool) → Nat → Nat → Option (Nat → Bool)
  | 0, _, _, _ => none
  | fuel + 1, l, i, t =>
    if i ≤ t then lockLoopU64 upd fuel (upd l i) ((i + 1) % U64LIMIT) t
    else some l

/-- The `AddRange` lookup loop over genuine uint64 arithmetic. -/
def addLoopU64 : Nat → (Nat → Bool) → Nat → Nat → Option (Nat → Bool) :=
  lockLoopU64 (fun l i => fun n => if n = i then true else l n)

/-- The `RemoveRange` lookup loop over genuine uint64 arithmetic. -/
def removeLoopU64 : Nat → (Nat → Bool) → Nat → Nat → Option (Nat → Bool) :=
  lockLoopU64 (fun l i => fun n => if n = i then false else l n)

theorem lockLoopU64_isSome (upd : (Nat → Bool) → Nat → (Nat → Bool))
    (t : Nat) (ht : t + 1 < U64LIMIT) :
    ∀ (k : Nat) (i : Nat) (l : Nat → Bool), t + 1 ≤ i + k → i < U64LIMIT →
      (lockLoopU64 upd (k + 1) l i t).isSome := by
  intro k
  induction k with
  | zero =>
    intro i l hk hi
    have hit : ¬ i ≤ t := by omega
    simp [lockLoopU64, hit]
  | succ k ih =>
    intro i l hk hi
    by_cases hit : i ≤ t
    · have hmod : (i + 1) % U64LIMIT = i + 1 := Nat.mod_eq_of_lt (by omega)
      rw [lockLoopU64, if_pos hit, hmod]
      exact ih (i + 1) (upd l i) (by omega) (by omega)
    · simp [lockLoopU64, hit]

theorem lockLoopU64_maxTo_none (upd : (Nat → Bool) → Nat → (Nat → Bool)) :
    ∀ (fuel : Nat) (i : Nat) (l : Nat → Bool), i < U64LIMIT →
      lockLoopU64 upd fuel l i (U64LIMIT - 1) = none := by
  intro fuel
  induction fuel with
  | zero =>
    intro i l _
    rfl
  | succ fuel ih =>
    intro i l hi
    have hit : i ≤ U64LIMIT - 1 := by omega
    rw [lockLoopU64, if_pos hit]
    exact ih _ _ (Nat.mod_lt _ (by decide))

/-- C9: for `to < 2^64 - 1` the per-identifier loops of `AddRange` and
`RemoveRange` terminate (some fuel suffices), while for `to = 2^64 - 1`
(the maximum uint64 value, where `from ≤ to` holds automatically) the loop
condition `i <= to` never becomes false and no amount of fuel suffices. -/
theorem lockLoop_termination (f t : Nat) (l : Nat → Bool) (hf : f < U64LIMIT)
    (ht : t < U64LIMIT) :
    (t < U64LIMIT - 1 →
      (∃ fuel, (addLoopU64 fuel l f t).isSome)
      ∧ (∃ fuel, (removeLoopU64 fuel l f t).isSome))
    ∧ (t = U64LIMIT - 1 → f ≤ t → ∀ fuel,
        addLoopU64 fuel l f t = none ∧ removeLoopU64 fuel l f t = none) := by
  constructor
  · intro hlt
    constructor
    · exact ⟨t + 1 - f + 1,
        lockLoopU64_isSome _ t (by omega) (t + 1 - f) f l (by omega) hf⟩
    · exact ⟨t + 1 - f + 1,
        lockLoopU64_isSome _ t (by omega) (t + 1 - f) f l (by omega) hf⟩
  · intro hmax _ fuel
    subst hmax
    exact ⟨lockLoopU64_maxTo_none _ fuel f l hf, lockLoopU64_maxTo_none _ fuel f l hf⟩

/-- Witness for C9: the loops terminate on `[2, 5]` and never on
`[0, 2^64 - 1]`. -/
theorem lockLoop_termination_witness :
    ((∃ fuel, (addLoopU64 fuel (fun _ => false) 2 5).isSome)
      ∧ (∃ fuel, (removeLoopU64 fuel (fun _ => false) 2 5).isSome))
    ∧ (∀ fuel, addLoopU64 fuel (fun _ => false) 0 (U64LIMIT - 1) = none
        ∧ removeLoopU64 fuel (fun _ => false) 0 (U64LIMIT - 1) = none) := by
  constructor
  · exact (lockLoop_termination 2 5 (fun _ => false) (by norm_num [U64LIMIT])
      (by norm_num [U64LIMIT])).1 (by norm_num [U64LIMIT])
  · exact (lockLoop_termination 0 (U64LIMIT - 1) (fun _ => false)
      (by norm_num [U64LIMIT]) (by norm_num [U64LIMIT])).2 rfl
      (by norm_num [U64LIMIT])

/-- `n` lies in the closed interval stored by `r`. -/
def covers (r : Range) (n : Nat) : Prop := r.from_ ≤ n ∧ n ≤ r.to_

/-- The spec invariant: `lookupMap` holds exactly the identifiers covered by
the union of the intervals stored in `rangeMap`. -/
def lockInvariant (rc : RequestLock) : Prop :=
  ∀ n, rc.lookupMap n = true ↔ ∃ k r, rc.rangeMap k = some r ∧ covers r n

/-- One mutating call on a RequestLock. -/
inductive LockOp where
  | add (f t : Nat)
  | remove (f t : Nat)
deriving DecidableEq

def applyOp (rc : RequestLock) : LockOp → RequestLock
  | .add f t => rc.AddRange f t
  | .remove f t => rc.RemoveRange f t

def applyOps (rc : RequestLock) : List LockOp → RequestLock
  | [] => rc
  | op :: rest => applyOps (applyOp rc op) rest

/-- Discipline under which the coordinator drives the lock: an added range is
ordered and does not meet any identifier currently marked in `lookupMap`, and
a removed range is exactly one of the stored ranges. -/
def validOp (rc : RequestLock) : LockOp → Prop
  | .add f t => f ≤ t ∧ ∀ n, f ≤ n → n ≤ t → rc.lookupMap n = false
  | .remove f t => rc.rangeMap f = some ⟨f, t⟩

def validOps (rc : RequestLock) : List LockOp → Prop
  | [] => True
  | op :: rest => validOp rc op ∧ validOps (applyOp rc op) rest

/-- Strengthening of `lockInvariant` closed under valid operations: every
stored range sits under its own `from` key and is ordered, stored ranges are
pairwise disjoint, and the spec invariant holds. -/
def wfLock (rc : RequestLock) : Prop :=
  (∀ k r, rc.rangeMap k = some r → r.from_ = k ∧ r.from_ ≤ r.to_)
  ∧ (∀ k1 k2 r1 r2 n, rc.rangeMap k1 = some r1 → rc.rangeMap k2 = some r2 →
      covers r1 n → covers r2 n → k1 = k2)
  ∧ lockInvariant rc

theorem wfLock_empty : wfLock emptyRequestLock := by
  refine ⟨?_, ?_, ?_⟩
  · intro k r hk
    exact Option.noConfusion hk
  · intro k1 k2 r1 r2 n h1 h2 _ _
    exact Option.noConfusion h1
  · intro n
    constructor
    · intro h
      exact Bool.noConfusion h
    · rintro ⟨k, r, hk, -⟩
      exact Option.noConfusion hk

theorem wfLock_applyOp (rc : RequestLock) (op : LockOp) (hwf : wfLock rc)
    (hv : validOp rc op) : wfLock (applyOp rc op) := by
  obtain ⟨hkeys, hdisj, hinv⟩ := hwf
  cases op with
  | add f t =>
    obtain ⟨hft, hno⟩ := hv
    have hfresh : ∀ k r, rc.rangeMap k = some r → ∀ n, covers r n →
        ¬ (f ≤ n ∧ n ≤ t) := by
      intro k r hk n hc hn
      have hl : rc.lookupMap n = true := (hinv n).2 ⟨k, r, hk, hc⟩
      rw [hno n hn.1 hn.2] at hl
      exact Bool.noConfusion hl
    have hmap : ∀ k, (applyOp rc (.add f t)).rangeMap k
        = if k = f then some ⟨f, t⟩ else rc.rangeMap k := fun _ => rfl
    have hlk : ∀ n, (applyOp rc (.add f t)).lookupMap n
        = (decide (f ≤ n ∧ n ≤ t) || rc.lookupMap n) :=
      fun n => IsWithinAnyRange_AddRange rc f t n
    refine ⟨?_, ?_, ?_⟩
    · intro k r hk
      rw [hmap] at hk
      by_cases hkf : k = f
      · rw [if_pos hkf] at hk
        injection hk with he
        rw [← he]
        exact ⟨hkf.symm, hft⟩
      · rw [if_neg hkf] at hk
        exact hkeys k r hk
    · intro k1 k2 r1 r2 n h1 h2 hc1 hc2
      rw [hmap] at h1 h2
      by_cases h1f : k1 = f
      · by_cases h2f : k2 = f
        · rw [h1f, h2f]
        · exfalso
          rw [if_pos h1f] at h1
          rw [if_neg h2f] at h2
          injection h1 with he
          rw [← he] at hc1
          exact hfresh k2 r2 h2 n hc2 ⟨hc1.1, hc1.2⟩
      · by_cases h2f : k2 = f
        · exfalso
          rw [if_neg h1f] at h1
          rw [if_pos h2f] at h2
          injection h2 with he
          rw [← he] at hc2
          exact hfresh k1 r1 h1 n hc1 ⟨hc2.1, hc2.2⟩
        · rw [if_neg h1f] at h1
          rw [if_neg h2f] at h2
          exact hdisj k1 k2 r1 r2 n h1 h2 hc1 hc2
    · intro n
      rw [hlk, Bool.or_eq_true, decide_eq_true_eq]
      constructor
      · intro hor
        cases hor with
        | inl h =>
          exact ⟨f, ⟨f, t⟩, by rw [hmap, if_pos rfl], h.1, h.2⟩
        | inr h =>
          obtain ⟨k, r, hk, hc⟩ := (hinv n).1 h
          have hkf : k ≠ f := by
            intro he
            subst he
            obtain ⟨hrf, hrle⟩ := hkeys k r hk
            exact hfresh k r hk k ⟨le_of_eq hrf, by omega⟩ ⟨le_rfl, hft⟩
          exact ⟨k, r, by rw [hmap, if_neg hkf]; exact hk, hc⟩
      · rintro ⟨k, r, hk, hc⟩
        rw [hmap] at hk
        by_cases hkf : k = f
        · rw [if_pos hkf] at hk
          injection hk with he
          rw [← he] at hc
          exact Or.inl ⟨hc.1, hc.2⟩
        · rw [if_neg hkf] at hk
          exact Or.inr ((hinv n).2 ⟨k, r, hk, hc⟩)
  | remove f t =>
    have hmap : ∀ k, (applyOp rc (.remove f t)).rangeMap k
        = if k = f then none else rc.rangeMap k := fun _ => rfl
    have hlk : ∀ n, (applyOp rc (.remove f t)).lookupMap n
        = (!decide (f ≤ n ∧ n ≤ t) && rc.lookupMap n) :=
      fun n => IsWithinAnyRange_RemoveRange rc f t n
    refine ⟨?_, ?_, ?_⟩
    · intro k r hk
      rw [hmap] at hk
      by_cases hkf : k = f
      · rw [if_pos hkf] at hk
        exact Option.noConfusion hk
      · rw [if_neg hkf] at hk
        exact hkeys k r hk
    · intro k1 k2 r1 r2 n h1 h2 hc1 hc2
      rw [hmap] at h1 h2
      by_cases h1f : k1 = f
      · rw [if_pos h1f] at h1
        exact Option.noConfusion h1
      · by_cases h2f : k2 = f
        · rw [if_pos h2f] at h2
          exact Option.noConfusion h2
        · rw [if_neg h1f] at h1
          rw [if_neg h2f] at h2
          exact hdisj k1 k2 r1 r2 n h1 h2 hc1 hc2
    · intro n
      rw [hlk, Bool.and_eq_true]
      constructor
      · rintro ⟨hnot, hl⟩
        obtain ⟨k, r, hk, hc⟩ := (hinv n).1 hl
        have hkf : k ≠ f := by
          intro he
          subst he
          rw [hv] at hk
          injection hk with he2
          rw [← he2] at hc
          rw [decide_eq_true (show k ≤ n ∧ n ≤ t from ⟨hc.1, hc.2⟩)] at hnot
          exact absurd hnot (by decide)
        exact ⟨k, r, by rw [hmap, if_neg hkf]; exact hk, hc⟩
      · rintro ⟨k, r, hk, hc⟩
        rw [hmap] at hk
        by_cases hkf : k = f
        · rw [if_pos hkf] at hk
          exact Option.noConfusion hk
        · rw [if_neg hkf] at hk
          constructor
          · rw [Bool.not_eq_true', decide_eq_false_iff_not]
            intro hn
            exact hkf (hdisj k f r ⟨f, t⟩ n hk hv hc ⟨hn.1, hn.2⟩)
          · exact (hinv n).2 ⟨k, r, hk, hc⟩

theorem validOps_append_left (rc : RequestLock) (p s : List LockOp)
    (h : validOps rc (p ++ s)) : validOps rc p := by
  induction p generalizing rc with
  | nil => trivial
  | cons op rest ih => exact ⟨h.1, ih _ h.2⟩

theorem wfLock_applyOps (rc : RequestLock) (ops : List LockOp)
    (hwf : wfLock rc) (hv : validOps rc ops) : wfLock (applyOps rc ops) := by
  induction ops generalizing rc with
  | nil => exact hwf
  | cons op rest ih => exact ih _ (wfLock_applyOp rc op hwf hv.1) hv.2

/-- C1 counterexample: two `AddRange` calls sharing the `from` key 1 break the
invariant — identifier 6 stays marked in `lookupMap` although no stored range
covers it. -/
theorem requestLock_invariant_counterexample :
    ¬ lockInvariant (applyOps emptyRequestLock
      [LockOp.add 1 10, LockOp.add 1 5]) := by
  intro h
  have h6 : (applyOps emptyRequestLock
      [LockOp.add 1 10, LockOp.add 1 5]).lookupMap 6 = true := by decide
  obtain ⟨k, r, hk, hc⟩ := (h 6).1 h6
  by_cases hk1 : k = 1
  · subst hk1
    have hr : r = ⟨1, 5⟩ := by
      have hk2 : (applyOps emptyRequestLock
          [LockOp.add 1 10, LockOp.add 1 5]).rangeMap 1 = some ⟨1, 5⟩ := rfl
      rw [hk2] at hk
      injection hk with he
      exact he.symm
    rw [hr] at hc
    exact absurd hc.2 (by decide)
  · have hk2 : (applyOps emptyRequestLock
        [LockOp.add 1 10, LockOp.add 1 5]).rangeMap k = none := by
      show (if k = 1 then some ⟨1, 5⟩ else
        if k = 1 then some ⟨1, 10⟩ else emptyRequestLock.rangeMap k) = none
      rw [if_neg hk1, if_neg hk1]
      rfl
    rw [hk2] at hk
    exact Option.noConfusion hk

/-- C1 (amended): along every sequence of `AddRange`/`RemoveRange` calls from
the empty lock in which each added range is ordered and disjoint from every
currently active range (in particular no two active ranges overlap or share a
`from` key) and each removed range is exactly an active one, the RequestLock
invariant holds after each call: `lookupMap` contains exactly the identifiers
covered by the union of the intervals stored in `rangeMap`. -/
theorem requestLock_invariant_amended (ops : List LockOp)
    (hv : validOps emptyRequestLock ops) (p : List LockOp)
    (hp : ∃ s, p ++ s = ops) : lockInvariant (applyOps emptyRequestLock p) := by
  obtain ⟨s, rfl⟩ := hp
  exact (wfLock_applyOps emptyRequestLock p wfLock_empty
    (validOps_append_left emptyRequestLock p s hv)).2.2

/-- Witness for the amended C1 on a concrete valid sequence. -/
theorem requestLock_invariant_amended_witness :
    validOps emptyRequestLock [LockOp.add 1 10, LockOp.remove 1 10]
    ∧ lockInvariant (applyOps emptyRequestLock [LockOp.add 1 10]) := by
  have hv : validOps emptyRequestLock [LockOp.add 1 10, LockOp.remove 1 10] := by
    refine ⟨⟨by decide, fun n _ _ => rfl⟩, ?_, trivial⟩
    show (emptyRequestLock.AddRange 1 10).rangeMap 1 = some ⟨1, 10⟩
    rfl
  exact ⟨hv, requestLock_invariant_amended _ hv [LockOp.add 1 10]
    ⟨[LockOp.remove 1 10], rfl⟩⟩

/-! ## The fetch coordinator (BlockArchiverService)

Block payloads are opaque to the coordinator: hashes, bodies, headers and raw
(unconverted) blocks are represented by Nat. A converted block exposes the
four accessors the coordinator uses: `Hash()`, `NumberU64()`, `Body()`,
`Header()`. -/

/-- A block after `convertBlock`: the four projections used by the
coordinator. -/
structure ConvBlock where
  hash : Nat
  number : Nat
  body : Nat
  header : Nat
deriving DecidableEq

/-- The cache triplet: `hashCache : number → hash`, `bodyCache : hash → body`,
`headerCache : hash → header` (the LRU caches are external; the model keeps
only their lookup behaviour). -/
structure CacheState where
  hashCache : Nat → Option Nat
  bodyCache : Nat → Option Nat
  headerCache : Nat → Option Nat

def emptyCacheState : CacheState :=
  { hashCache := fun _ => none, bodyCache := fun _ => none,
    headerCache := fun _ => none }

/-- Errors surfaced by the coordinator. `blockNotFound` is
`errors.New("block not found")`; `remote` covers transport-layer failures
returned by the client; `convert` covers `convertBlock` failures. -/
inductive ArchiverErr where
  | blockNotFound
  | remote (code : Nat)
  | convert (code : Nat)
deriving DecidableEq

/-- Outcomes of the external interactions of one `getBlockByNumber` /
`GetBlockByHash` call. `waitCaches k` is the cache triplet observed at round
`k` of the wait loop (the caches are filled concurrently by other tasks, so
each round may see a different state). `hexNumber` is the outcome of
`HexToUint64(block.Number)` on a raw block (helper code outside the embedded
sources). -/
structure FetchEnv where
  waitCaches : Nat → CacheState
  bundleRange : Except ArchiverErr (Nat × Nat)
  bundleBlocks : Except ArchiverErr (List Nat)
  convertBlock : Nat → Except ArchiverErr ConvBlock
  clientBlockByHash : Except ArchiverErr (Option Nat)
  hexNumber : Nat → Except ArchiverErr Nat

/-- Observable actions of one call: lock mutations and remote calls. -/
inductive FetchEvent where
  | addRange (f t : Nat)
  | removeRange (f t : Nat)
  | callBundleRange
  | callBundleBlocks
  | callBlockByHash
deriving DecidableEq

/-- Result of one coordinator call: the returned value (a body/header pair,
each possibly nil, or an error), the final lock and cache states, and the
event trace. -/
structure FetchOut where
  result : Except ArchiverErr (Option Nat × Option Nat)
  lock : RequestLock
  cache : CacheState
  events : List FetchEvent

/-- The cache-triplet check used both by `GetBlockByNumber` and inside the
wait loop: hash, body and header must all be present. -/
def cacheTriplet (cs : CacheState) (number : Nat) : Option (Nat × Nat) :=
  match cs.hashCache number with
  | none => none
  | some h =>
    match cs.bodyCache h, cs.headerCache h with
    | some b, some hd => some (b, hd)
    | some _, none => none
    | none, some _ => none
    | none, none => none

/-- `GetBlockRetry = 3` from service.go. -/
def GetBlockRetry : Nat := 3

/-- The wait loop `for retry := 0; retry < GetBlockRetry; retry++`: check the
cache triplet, otherwise sleep `GetBlockRetryInterval` and try again; after
the budget is exhausted return `errors.New("block not found")`. The second
Nat argument is the current round, the third the remaining rounds. -/
def waitLoop (caches : Nat → CacheState) (number : Nat) :
    Nat → Nat → Except ArchiverErr (Option Nat × Option Nat)
  | _, 0 => .error .blockNotFound
  | round, k + 1 =>
    match cacheTriplet (caches round) number with
    | some (b, hd) => .ok (some b, some hd)
    | none => waitLoop caches number (round + 1) k

/-- The cache-population loop of `getBlockByNumber`: convert each fetched
block (propagating a conversion error), add its hash, body and header to the
caches, and remember the body/header pair of the requested number. -/
def populateLoop (conv : Nat → Except ArchiverErr ConvBlock) (number : Nat) :
    List Nat → CacheState → Option Nat → Option Nat →
    Except ArchiverErr (Option Nat × Option Nat) × CacheState
  | [], cs, body, header => (.ok (body, header), cs)
  | b :: rest, cs, body, header =>
    match conv b with
    | .error e => (.error e, cs)
    | .ok blk =>
      let cs2 : CacheState :=
        { hashCache := fun k => if k = blk.number then some blk.hash
            else cs.hashCache k,
          bodyCache := fun k => if k = blk.hash then some blk.body
            else cs.bodyCache k,
          headerCache := fun k => if k = blk.hash then some blk.header
            else cs.headerCache k }
      if blk.number = number then
        populateLoop conv number rest cs2 (some blk.body) (some blk.header)
      else
        populateLoop conv number rest cs2 body header

/-- The unexported `getBlockByNumber` of service.go: wait loop when the
number is inside an active range, otherwise fetch the bundle range, take the
lock (releasing it on every exit path, as the Go `defer` does), fetch and
convert the bundle, and populate the caches. -/
def getBlockByNumber (env : FetchEnv) (rl : RequestLock) (cs : CacheState)
    (number : Nat) : FetchOut :=
  if rl.IsWithinAnyRange number then
    { result := waitLoop env.waitCaches number 0 GetBlockRetry,
      lock := rl, cache := cs, events := [] }
  else
    match env.bundleRange with
    | .error e =>
      { result := .error e, lock := rl, cache := cs,
        events := [.callBundleRange] }
    | .ok (start, end_) =>
      let rl1 := rl.AddRange start end_
      match env.bundleBlocks with
      | .error e =>
        { result := .error e, lock := rl1.RemoveRange start end_, cache := cs,
          events := [.callBundleRange, .addRange start end_,
            .callBundleBlocks, .removeRange start end_] }
      | .ok blocks =>
        let pr := populateLoop env.convertBlock number blocks cs none none
        { result := pr.1, lock := rl1.RemoveRange start end_, cache := pr.2,
          events := [.callBundleRange, .addRange start end_,
            .callBundleBlocks, .removeRange start end_] }

/-- The exported `GetBlockByNumber` of service.go: return directly when hash,
body and header are all cached, otherwise defer to `getBlockByNumber`. -/
def GetBlockByNumber (env : FetchEnv) (rl : RequestLock) (cs : CacheState)
    (number : Nat) : FetchOut :=
  match cs.hashCache number with
  | some h =>
    match cs.bodyCache h, cs.headerCache h with
    | some body, some header =>
      { result := .ok (some body, some header), lock := rl, cache := cs,
        events := [] }
    | some _, none => getBlockByNumber env rl cs number
    | none, some _ => getBlockByNumber env rl cs number
    | none, none => getBlockByNumber env rl cs number
  | none => getBlockByNumber env rl cs number

/-- The exported `GetBlockByHash` of service.go: return directly when body
and header are cached under the hash; otherwise ask the client for the block,
propagate its error, return `(nil, nil, nil)` on a nil block, and otherwise
decode the number and defer to `getBlockByNumber`. -/
def GetBlockByHash (env : FetchEnv) (rl : RequestLock) (cs : CacheState)
    (h : Nat) : FetchOut :=
  match cs.bodyCache h, cs.headerCache h with
  | some body, some header =>
    { result := .ok (some body, some header), lock := rl, cache := cs,
      events := [] }
  | _, _ =>
    match env.clientBlockByHash with
    | .error e =>
      { result := .error e, lock := rl, cache := cs,
        events := [.callBlockByHash] }
    | .ok none =>
      { result := .ok (none, none), lock := rl, cache := cs,
        events := [.callBlockByHash] }
    | .ok (some rawBlk) =>
      match env.hexNumber rawBlk with
      | .error e =>
        { result := .error e, lock := rl, cache := cs,
          events := [.callBlockByHash] }
      | .ok number =>
        let out := getBlockByNumber env rl cs number
        { out with events := .callBlockByHash :: out.events }

theorem waitLoop_notFound (caches : Nat → CacheState) (number : Nat) :
    ∀ (fuel round : Nat),
      (∀ j, j < fuel → cacheTriplet (caches (round + j)) number = none) →
      waitLoop caches number round fuel = .error .blockNotFound := by
  intro fuel
  induction fuel with
  | zero =>
    intro round _
    rfl
  | succ k ih =>
    intro round h
    have h0 : cacheTriplet (caches round) number = none := by
      have hx := h 0 (by omega)
      rwa [Nat.add_zero] at hx
    rw [waitLoop, h0]
    exact ih (round + 1) (fun j hj => by
      have hx := h (j + 1) (by omega)
      rwa [show round + (j + 1) = round + 1 + j by omega] at hx)

theorem waitLoop_firstHit (caches : Nat → CacheState) (number : Nat) :
    ∀ (fuel round k : Nat), k < fuel →
      (∀ j, j < k → cacheTriplet (caches (round + j)) number = none) →
      ∀ b hd, cacheTriplet (caches (round + k)) number = some (b, hd) →
      waitLoop caches number round fuel = .ok (some b, some hd) := by
  intro fuel
  induction fuel with
  | zero =>
    intro round k hk
    exact absurd hk (Nat.not_lt_zero k)
  | succ f ih =>
    intro round k hk hnone b hd hhit
    cases k with
    | zero =>
      rw [Nat.add_zero] at hhit
      rw [waitLoop, hhit]
    | succ k2 =>
      have h0 : cacheTriplet (caches round) number = none := by
        have hx := hnone 0 (by omega)
        rwa [Nat.add_zero] at hx
      rw [waitLoop, h0]
      exact ih (round + 1) k2 (by omega)
        (fun j hj => by
          have hx := hnone (j + 1) (by omega)
          rwa [show round + (j + 1) = round + 1 + j by omega] at hx)
        b hd (by rwa [show round + (k2 + 1) = round + 1 + k2 by omega] at hhit)

theorem waitLoop_error_shape (caches : Nat → CacheState) (number : Nat) :
    ∀ (fuel round : Nat) (e : ArchiverErr),
      waitLoop caches number round fuel = .error e → e = .blockNotFound := by
  intro fuel
  induction fuel with
  | zero =>
    intro round e h
    have h2 : (Except.error ArchiverErr.blockNotFound :
        Except ArchiverErr (Option Nat × Option Nat)) = .error e := h
    injection h2 with he
    exact he.symm
  | succ f ih =>
    intro round e h
    rw [waitLoop] at h
    cases hc : cacheTriplet (caches round) number with
    | none =>
      rw [hc] at h
      exact ih (round + 1) e h
    | some p =>
      obtain ⟨b, hd⟩ := p
      rw [hc] at h
      exact Except.noConfusion h

/-- C4: when the requested number lies inside an active range at entry,
`getBlockByNumber` performs up to `GetBlockRetry = 3` cache-check rounds,
issues no remote call and no lock operation, returns the body/header pair of
the first fully cached round on success, returns the "block not found" error when
all rounds miss, and can fail with no error other than "block not found". -/
theorem getBlockByNumber_waitPath (env : FetchEnv) (rl : RequestLock)
    (cs : CacheState) (n : Nat) (h : rl.IsWithinAnyRange n = true) :
    (getBlockByNumber env rl cs n).events = []
    ∧ (getBlockByNumber env rl cs n).lock = rl
    ∧ (∀ k, k < GetBlockRetry →
        (∀ j, j < k → cacheTriplet (env.waitCaches j) n = none) →
        ∀ b hd, cacheTriplet (env.waitCaches k) n = some (b, hd) →
        (getBlockByNumber env rl cs n).result = .ok (some b, some hd))
    ∧ ((∀ k, k < GetBlockRetry → cacheTriplet (env.waitCaches k) n = none) →
        (getBlockByNumber env rl cs n).result = .error .blockNotFound)
    ∧ (∀ e, (getBlockByNumber env rl cs n).result = .error e →
        e = .blockNotFound) := by
  have hout : getBlockByNumber env rl cs n =
      { result := waitLoop env.waitCaches n 0 GetBlockRetry, lock := rl,
        cache := cs, events := [] } := by
    unfold getBlockByNumber
    rw [h]
    rfl
  rw [hout]
  refine ⟨rfl, rfl, ?_, ?_, ?_⟩
  · intro k hk hnone b hd hhit
    exact waitLoop_firstHit env.waitCaches n GetBlockRetry 0 k hk
      (fun j hj => by rw [Nat.zero_add]; exact hnone j hj) b hd
      (by rw [Nat.zero_add]; exact hhit)
  · intro hall
    exact waitLoop_notFound env.waitCaches n GetBlockRetry 0
      (fun j hj => by rw [Nat.zero_add]; exact hall j hj)
  · intro e he
    exact waitLoop_error_shape env.waitCaches n GetBlockRetry 0 e he

/-- Concrete cache triplet holding block 7 with hash 100, body 11, header 22. -/
def witnessCache : CacheState :=
  { hashCache := fun k => if k = 7 then some 100 else none,
    bodyCache := fun k => if k = 100 then some 11 else none,
    headerCache := fun k => if k = 100 then some 22 else none }

/-- Environment whose wait loop sees the cache filled at round 1. -/
def waitEnv : FetchEnv :=
  { waitCaches := fun k => if k = 1 then witnessCache else emptyCacheState,
    bundleRange := .error (.remote 0),
    bundleBlocks := .error (.remote 0),
    convertBlock := fun _ => .error (.convert 0),
    clientBlockByHash := .error (.remote 0),
    hexNumber := fun _ => .error (.remote 0) }

/-- Witness for C4: with 7 inside the active range `[5, 9]` and the cache
filled at round 1, the call returns the cached pair and issues no event. -/
theorem getBlockByNumber_waitPath_witness :
    (getBlockByNumber waitEnv (emptyRequestLock.AddRange 5 9)
      emptyCacheState 7).result = .ok (some 11, some 22)
    ∧ (getBlockByNumber waitEnv (emptyRequestLock.AddRange 5 9)
      emptyCacheState 7).events = [] := by
  have h := getBlockByNumber_waitPath waitEnv (emptyRequestLock.AddRange 5 9)
    emptyCacheState 7 (by decide)
  refine ⟨?_, h.1⟩
  exact h.2.2.1 1 (by decide)
    (fun j hj => by
      have hj0 : j = 0 := by omega
      subst hj0
      rfl)
    11 22 rfl

/-- C3: whenever `getBlockByNumber` reaches `AddRange(start, end)` (the number
is not inside an active range and the bundle-range call succeeded), the trace
shows exactly one `AddRange` followed by exactly one `RemoveRange` for that
range before the call returns — on the success path and on the paths where
the bundle fetch or a block conversion fails — and the final lock keeps no
entry for that range. -/
theorem getBlockByNumber_lockDiscipline (env : FetchEnv) (rl : RequestLock)
    (cs : CacheState) (n s e : Nat) (hw : rl.IsWithinAnyRange n = false)
    (hr : env.bundleRange = .ok (s, e)) :
    (getBlockByNumber env rl cs n).events
      = [.callBundleRange, .addRange s e, .callBundleBlocks, .removeRange s e]
    ∧ (getBlockByNumber env rl cs n).lock = (rl.AddRange s e).RemoveRange s e
    ∧ (∀ x, s ≤ x → x ≤ e →
        ((getBlockByNumber env rl cs n).lock).IsWithinAnyRange x = false)
    ∧ ((getBlockByNumber env rl cs n).lock).rangeMap s = none := by
  have key : (getBlockByNumber env rl cs n).events
        = [.callBundleRange, .addRange s e, .callBundleBlocks,
            .removeRange s e]
      ∧ (getBlockByNumber env rl cs n).lock
        = (rl.AddRange s e).RemoveRange s e := by
    unfold getBlockByNumber
    rw [hw, hr]
    cases hb : env.bundleBlocks with
    | error e2 => exact ⟨rfl, rfl⟩
    | ok blocks => exact ⟨rfl, rfl⟩
  refine ⟨key.1, key.2, ?_, ?_⟩
  · intro x h1 h2
    rw [key.2, IsWithinAnyRange_RemoveRange]
    simp [h1, h2]
  · rw [key.2]
    show (if s = s then none else (rl.AddRange s e).rangeMap s) = none
    rw [if_pos rfl]

/-- Environment where the bundle-range call succeeds but the bundle fetch
fails with a transport error. -/
def fetchFailEnv : FetchEnv :=
  { waitCaches := fun _ => emptyCacheState,
    bundleRange := .ok (100, 199),
    bundleBlocks := .error (.remote 7),
    convertBlock := fun _ => .error (.convert 0),
    clientBlockByHash := .error (.remote 0),
    hexNumber := fun _ => .error (.remote 0) }

/-- Witness for C3 on a failed bundle fetch of `[100, 199]`. -/
theorem getBlockByNumber_lockDiscipline_witness :
    (getBlockByNumber fetchFailEnv emptyRequestLock emptyCacheState 150).events
      = [.callBundleRange, .addRange 100 199, .callBundleBlocks,
          .removeRange 100 199]
    ∧ ((getBlockByNumber fetchFailEnv emptyRequestLock
        emptyCacheState 150).lock).IsWithinAnyRange 150 = false := by
  have h := getBlockByNumber_lockDiscipline fetchFailEnv emptyRequestLock
    emptyCacheState 150 100 199 rfl rfl
  exact ⟨h.1, h.2.2.1 150 (by decide) (by decide)⟩

/-- C8: when hash, body and header are all cached for the requested number,
`GetBlockByNumber` returns the cached pair with no error, leaving lock and
cache untouched and issuing no event; when any of the three entries is
missing the call proceeds to the fetch/wait path `getBlockByNumber`. -/
theorem GetBlockByNumber_cacheCheck (env : FetchEnv) (rl : RequestLock)
    (cs : CacheState) (n : Nat) :
    (∀ b hd, cacheTriplet cs n = some (b, hd) →
      GetBlockByNumber env rl cs n =
        { result := .ok (some b, some hd), lock := rl, cache := cs,
          events := [] })
    ∧ (cacheTriplet cs n = none →
      GetBlockByNumber env rl cs n = getBlockByNumber env rl cs n) := by
  constructor
  · intro b hd hc
    unfold cacheTriplet at hc
    unfold GetBlockByNumber
    cases hh : cs.hashCache n with
    | none =>
      rw [hh] at hc
      exact Option.noConfusion hc
    | some hsh =>
      simp only [hh] at hc
      cases hbo : cs.bodyCache hsh with
      | none =>
        cases hhdr : cs.headerCache hsh with
        | none =>
          simp only [hbo, hhdr] at hc
          exact Option.noConfusion hc
        | some x =>
          simp only [hbo, hhdr] at hc
          exact Option.noConfusion hc
      | some bv =>
        cases hhdr : cs.headerCache hsh with
        | none =>
          simp only [hbo, hhdr] at hc
          exact Option.noConfusion hc
        | some hv =>
          simp only [hbo, hhdr, Option.some.injEq] at hc
          simp only [hh, hbo, hhdr]
          rw [show bv = b from congrArg Prod.fst hc,
            show hv = hd from congrArg Prod.snd hc]
  · intro hc
    unfold cacheTriplet at hc
    unfold GetBlockByNumber
    cases hh : cs.hashCache n with
    | none => rfl
    | some hsh =>
      simp only [hh] at hc
      cases hbo : cs.bodyCache hsh with
      | none =>
        cases hhdr : cs.headerCache hsh with
        | none => simp only [hbo, hhdr]
        | some x => simp only [hbo, hhdr]
      | some bv =>
        cases hhdr : cs.headerCache hsh with
        | none => simp only [hbo, hhdr]
        | some hv =>
          simp only [hbo, hhdr] at hc
          exact Option.noConfusion hc

/-- Witness for C8: a fully cached block is returned untouched, and a cache
miss defers to the fetch/wait path. -/
theorem GetBlockByNumber_cacheCheck_witness :
    GetBlockByNumber waitEnv emptyRequestLock witnessCache 7 =
      { result := .ok (some 11, some 22), lock := emptyRequestLock,
        cache := witnessCache, events := [] }
    ∧ GetBlockByNumber waitEnv emptyRequestLock emptyCacheState 3 =
      getBlockByNumber waitEnv emptyRequestLock emptyCacheState 3 :=
  ⟨(GetBlockByNumber_cacheCheck waitEnv emptyRequestLock witnessCache 7).1
      11 22 rfl,
    (GetBlockByNumber_cacheCheck waitEnv emptyRequestLock emptyCacheState 3).2
      rfl⟩

/-- C10: on a cache miss, when the remote-client call `GetBlockByHash`
succeeds but yields a nil block, the service method returns `(nil, nil, nil)`:
no body, no header and no error. -/
theorem GetBlockByHash_nilBlock (env : FetchEnv) (rl : RequestLock)
    (cs : CacheState) (h : Nat)
    (hmiss : cs.bodyCache h = none ∨ cs.headerCache h = none)
    (hnil : env.clientBlockByHash = .ok none) :
    GetBlockByHash env rl cs h =
      { result := .ok (none, none), lock := rl, cache := cs,
        events := [.callBlockByHash] } := by
  unfold GetBlockByHash
  rcases hmiss with hm | hm
  · simp only [hm, hnil]
  · cases hbo : cs.bodyCache h with
    | none => simp only [hbo, hnil]
    | some bv => simp only [hbo, hm, hnil]

/-- Environment whose client call by hash succeeds with a nil block. -/
def nilHashEnv : FetchEnv :=
  { waitCaches := fun _ => emptyCacheState,
    bundleRange := .error (.remote 0),
    bundleBlocks := .error (.remote 0),
    convertBlock := fun _ => .error (.convert 0),
    clientBlockByHash := .ok none,
    hexNumber := fun _ => .error (.remote 0) }

/-- Witness for C10 at hash 42 with empty caches. -/
theorem GetBlockByHash_nilBlock_witness :
    GetBlockByHash nilHashEnv emptyRequestLock emptyCacheState 42 =
      { result := .ok (none, none), lock := emptyRequestLock,
        cache := emptyCacheState, events := [.callBlockByHash] } :=
  GetBlockByHash_nilBlock nilHashEnv emptyRequestLock emptyCacheState 42
    (Or.inl rfl) rfl

/-! ## Bundle-name parsing (GetBundleBlocksRange, client.go)

The parsing tail of `GetBundleBlocksRange`:

    parts := strings.Split(bundleName, "_")
    startSlot, err := strconv.ParseUint(parts[1][1:], 10, 64)
    if err != nil { return 0, 0, err }
    endSlot, err := strconv.ParseUint(parts[2][1:], 10, 64)
    if err != nil { return 0, 0, err }
    return startSlot, endSlot, nil

Go panics (index/slice out of range) are modelled as a distinct outcome:
`parts[1]` panics when fewer than two parts exist, `parts[2]` when fewer than
three, and `p[1:]` panics when `p` is empty. -/

/-- The numeric value of a decimal digit string, as accumulated by
`strconv.ParseUint` base 10. -/
def decVal (s : List Char) : Nat :=
  s.foldl (fun a c => a * 10 + (c.toNat - 48)) 0

/-- `strconv.ParseUint(s, 10, 64)`: fails on the empty string, on any
non-digit character, and on values not fitting in 64 bits. -/
def goParseUint64 (s : List Char) : Option Nat :=
  if s = [] then none
  else if s.all Char.isDigit then
    if decVal s < U64LIMIT then some (decVal s) else none
  else none

/-- `strings.Split(s, "_")`: splits around every underscore, keeping empty
parts; the result always has one more part than there are underscores. -/
def goSplitUnderscore : List Char → List (List Char)
  | [] => [[]]
  | c :: rest =>
    if c = '_' then [] :: goSplitUnderscore rest
    else
      match goSplitUnderscore rest with
      | [] => [[c]]
      | p :: ps => (c :: p) :: ps

/-- Outcome of the parsing tail: a Go panic, a returned error, or the two
parsed slots. -/
inductive BundleParse where
  | panics
  | errors
  | ok (startSlot endSlot : Nat)
deriving DecidableEq

/-- The indexing and parsing of the split parts: `parts[1]` exists only when
at least two parts do (otherwise Go panics), `p[1:]` requires `p` nonempty
(otherwise Go panics), a `ParseUint` failure is a returned error, and
`parts[2]` requires a third part. -/
def parseParts : List (List Char) → BundleParse
  | _ :: p1 :: rest =>
    (match p1 with
    | [] => .panics
    | _ :: p1rest =>
      match goParseUint64 p1rest with
      | none => .errors
      | some startSlot =>
        match rest with
        | [] => .panics
        | p2 :: _ =>
          match p2 with
          | [] => .panics
          | _ :: p2rest =>
            match goParseUint64 p2rest with
            | none => .errors
            | some endSlot => .ok startSlot endSlot)
  | _ => .panics

/-- The parsing tail of `GetBundleBlocksRange` applied to the bundle name. -/
def getBundleBlocksRangeParse (name : List Char) : BundleParse :=
  parseParts (goSplitUnderscore name)

/-- C2 (code bug): the spec promises that a bundle name missing the `_e`
segment yields a parse error and never a panic, but `parts[2]` is indexed
unconditionally, so `"archive_s1000"` (two parts) and `"archive"` (one part)
make the code panic with an index-out-of-range; only names with at least
three parts whose numeric portion fails to parse return an error. -/
theorem getBundleBlocksRange_malformed_panics :
    getBundleBlocksRangeParse "archive_s1000".toList = .panics
    ∧ getBundleBlocksRangeParse "archive".toList = .panics
    ∧ getBundleBlocksRangeParse "a_b_c".toList = .errors := by
  decide

theorem goSplitUnderscore_no_underscore (l : List Char) (h : '_' ∉ l) :
    goSplitUnderscore l = [l] := by
  induction l with
  | nil => rfl
  | cons c rest ih =>
    have hc : c ≠ '_' := fun he => h (he ▸ List.mem_cons_self c rest)
    have hrest : '_' ∉ rest := fun hm => h (List.mem_cons_of_mem c hm)
    rw [goSplitUnderscore, if_neg hc, ih hrest]

theorem goSplitUnderscore_append (a b : List Char) (ha : '_' ∉ a) :
    goSplitUnderscore (a ++ '_' :: b) = a :: goSplitUnderscore b := by
  induction a with
  | nil =>
    show goSplitUnderscore ('_' :: b) = [] :: goSplitUnderscore b
    rw [goSplitUnderscore, if_pos rfl]
  | cons c rest ih =>
    have hc : c ≠ '_' := fun he => ha (he ▸ List.mem_cons_self c rest)
    have hrest : '_' ∉ rest := fun hm => ha (List.mem_cons_of_mem c hm)
    show goSplitUnderscore (c :: (rest ++ '_' :: b))
      = (c :: rest) :: goSplitUnderscore b
    rw [goSplitUnderscore, if_neg hc, ih hrest]

/-- C7: a well-formed bundle name `<pre>_s<start>_e<end>` — underscore-free
prefix, nonempty decimal digit strings for start and end whose values fit in
64 bits — parses to exactly those two numbers with no error. -/
theorem getBundleBlocksRange_wellFormed (pre ds de : List Char)
    (hpre : '_' ∉ pre)
    (hds : ds ≠ [] ∧ ds.all Char.isDigit = true)
    (hde : de ≠ [] ∧ de.all Char.isDigit = true)
    (hvs : decVal ds < U64LIMIT) (hve : decVal de < U64LIMIT) :
    getBundleBlocksRangeParse
      (pre ++ ('_' :: 's' :: (ds ++ ('_' :: 'e' :: de))))
      = .ok (decVal ds) (decVal de) := by
  have hds_nu : '_' ∉ ds := by
    intro hm
    exact absurd (List.all_eq_true.1 hds.2 _ hm) (by decide)
  have hsds_nu : '_' ∉ ('s' :: ds) := by
    intro hm
    rcases List.mem_cons.1 hm with he | hm2
    · exact absurd he.symm (by decide)
    · exact hds_nu hm2
  have hede_nu : '_' ∉ ('e' :: de) := by
    intro hm
    rcases List.mem_cons.1 hm with he | hm2
    · exact absurd he.symm (by decide)
    · exact absurd (List.all_eq_true.1 hde.2 _ hm2) (by decide)
  have h1 : goSplitUnderscore
        (pre ++ ('_' :: 's' :: (ds ++ ('_' :: 'e' :: de))))
      = pre :: ('s' :: ds) :: [('e' :: de)] := by
    rw [goSplitUnderscore_append pre _ hpre]
    congr 1
    show goSplitUnderscore (('s' :: ds) ++ ('_' :: 'e' :: de))
      = ('s' :: ds) :: [('e' :: de)]
    rw [goSplitUnderscore_append ('s' :: ds) _ hsds_nu,
      goSplitUnderscore_no_underscore _ hede_nu]
  have hparse_s : goParseUint64 ds = some (decVal ds) := by
    unfold goParseUint64
    rw [if_neg hds.1, if_pos hds.2, if_pos hvs]
  have hparse_e : goParseUint64 de = some (decVal de) := by
    unfold goParseUint64
    rw [if_neg hde.1, if_pos hde.2, if_pos hve]
  unfold getBundleBlocksRangeParse
  rw [h1]
  show (match goParseUint64 ds with
    | none => BundleParse.errors
    | some startSlot =>
      match goParseUint64 de with
      | none => BundleParse.errors
      | some endSlot => BundleParse.ok startSlot endSlot) = _
  simp only [hparse_s, hparse_e]

/-- Witness for C7 on the spec example `"archive_s1000_e1999"`. -/
theorem getBundleBlocksRange_wellFormed_witness :
    getBundleBlocksRangeParse "archive_s1000_e1999".toList = .ok 1000 1999 :=
  getBundleBlocksRange_wellFormed "archive".toList "1000".toList "1999".toList
    (by decide) ⟨by decide, by decide⟩ ⟨by decide, by decide⟩ (by decide)
    (by decide)

end BlockArchiver
